import Mathlib

/-!
Shallow embedding of the CompressPro transcoding pipeline, `main.py`:
`SystemDetector.get_optimal_encoder` and `get_fallback_encoders`,
`VideoCompressionWorker.run` and its helpers `setup_video_encoder`,
`setup_audio_encoder`, `resize_frame`, `get_resolution_dimensions`,
`parse_bitrate`.

Modelling conventions.  External PyAV effects (container opening, stream
negotiation, per-frame encoding and muxing) are abstracted into an `Env`
record of oracles.  The GUI-shared `is_cancelled` flag, written once by
the initiating thread and read many times by the worker, is modelled as
a Boolean trace `flag : Nat → Bool` indexed by the order in which `run`
reads the flag; a write-once flag corresponds to a monotone trace.
Python float truncation `int(x)` on the non-negative quotients appearing
in the code, progress `int((processed/total)*100)` and bitrate
`int(float(prefix)*mult)`, is modelled by natural-number division, which
computes the same floor on the (exactly representable, small) values
involved.  Machine integers in the source are Python bignums, so `Nat`
is exact.
-/

/-- One abstract encoded packet handed to `output_container.mux`. -/
abbrev Packet := Nat

/-- A decoded frame; only its dimensions are observable to the pipeline. -/
structure Frame where
  width : Nat
  height : Nat
deriving DecidableEq

/-- Metadata of an input video stream as read by `run` and
`setup_video_encoder`.  `none` models a missing (`hasattr` false) or
`None` attribute; Python truthiness of the numeric fields is `≠ 0`. -/
structure VideoStreamInfo where
  frames : Nat
  duration : Option Nat
  average_rate : Option Nat
  base_rate : Option Nat
  width : Nat
  height : Nat
deriving DecidableEq

/-- Metadata of an input audio stream as read by `setup_audio_encoder`. -/
structure AudioStreamInfo where
  sample_rate : Option Nat
  rate : Option Nat
  layout : Option String
deriving DecidableEq

/-- The opened input container: file existence, its stream lists and the
frames its demuxer yields for `decode(video=0)` and `decode(audio=0)`. -/
structure InputFile where
  inputExists : Bool
  videoStreams : List VideoStreamInfo
  audioStreams : List AudioStreamInfo
  videoFrames : List Frame
  audioFrames : List Frame
deriving DecidableEq

/-- The `CompressionSettings` dataclass with its source defaults. -/
structure CompressionSettings where
  input_file : String := ""
  output_file : String := ""
  codec : String := "h264"
  quality_mode : String := "crf"
  crf_value : Nat := 23
  bitrate : String := "1M"
  resolution : String := "original"
  fps : String := "original"
  gpu_acceleration : String := "auto"
  preset : String := "medium"
  audio_codec : String := "aac"
  audio_bitrate : String := "128k"
  threads : Nat := 0
deriving DecidableEq

/-- Oracles for the PyAV side effects the pipeline sequences:
which encoder names exist, whether opening the output container and
adding streams succeeds, and what each encode call produces. -/
structure Env where
  availableEncoders : String → Bool
  openOutputOk : Bool
  addStreamOk : String → Bool
  addAudioStreamOk : String → Bool
  encodeFails : Nat → Bool
  encodePackets : Nat → List Packet
  audioEncodePackets : Nat → List Packet
  flushVideoPackets : List Packet
  flushAudioPackets : List Packet

/-- Python truthiness of an optional integer attribute. -/
def truthyNat : Option Nat → Bool
  | none => false
  | some n => n != 0

/-- List-level check that `pat` occurs at the start of a character list. -/
def startsWithL : List Char → List Char → Bool
  | [], _ => true
  | _ :: _, [] => false
  | p :: ps, c :: cs => p = c && startsWithL ps cs

/-- List-level substring membership, modelling Python `pat in s`. -/
def hasSubstr (pat : List Char) : List Char → Bool
  | [] => startsWithL pat []
  | c :: cs => startsWithL pat (c :: cs) || hasSubstr pat cs

/-- Python `pat in s` on strings. -/
def strContains (s pat : String) : Bool := hasSubstr pat.toList s.toList

/-- The encoder priority table of `SystemDetector.get_optimal_encoder`,
software encoder first, then hardware variants; unknown codec families
map to the empty list (`encoder_priority.get(codec, [])`). -/
def encoder_priority (codec : String) : List String :=
  if codec = "h264" then
    ["libx264", "h264_nvenc", "h264_qsv", "h264_vaapi", "h264_videotoolbox"]
  else if codec = "h265" then
    ["libx265", "hevc_nvenc", "hevc_qsv", "hevc_vaapi", "hevc_videotoolbox"]
  else if codec = "vp9" then
    ["libvpx-vp9", "vp9_vaapi"]
  else if codec = "av1" then
    ["libsvtav1", "av1_qsv", "av1_vaapi", "av1_nvenc"]
  else []

/-- The hardcoded software fallback dictionary of `get_optimal_encoder`
with its `.get(codec, 'libx264')` default. -/
def encoder_fallback_default (codec : String) : String :=
  if codec = "h264" then "libx264"
  else if codec = "h265" then "libx265"
  else if codec = "vp9" then "libvpx-vp9"
  else if codec = "av1" then "libsvtav1"
  else "libx264"

/-- `SystemDetector.get_optimal_encoder`: first priority-table entry
present in `av.codec.codecs_available`, else the software fallback. -/
def get_optimal_encoder (available : String → Bool) (codec : String) : String :=
  match (encoder_priority codec).find? available with
  | some e => e
  | none => encoder_fallback_default codec

/-- `SystemDetector.get_fallback_encoders` with its
`.get(codec, ['libx264'])` default. -/
def get_fallback_encoders (codec : String) : List String :=
  if codec = "h264" then ["libx264", "h264_nvenc"]
  else if codec = "h265" then ["libx265", "hevc_nvenc"]
  else if codec = "vp9" then ["libvpx-vp9"]
  else if codec = "av1" then ["libsvtav1", "libaom-av1"]
  else ["libx264"]

/-- The ordered candidate list the worker iterates over,
`[encoder_name] + fallback_encoders` at `main.py:207`. -/
def attemptPlan (available : String → Bool) (st : CompressionSettings) : List String :=
  get_optimal_encoder available st.codec :: get_fallback_encoders st.codec

/-- An encoder name is a software encoder when it is one of the `lib*`
identifiers (libx264, libx265, libvpx-vp9, libsvtav1, libaom-av1). -/
def isSoftwareName (e : String) : Bool := startsWithL "lib".toList e.toList

/-- Numeric value of a digit list, most significant first. -/
def natOfDigits (cs : List Char) : Nat :=
  cs.foldl (fun a c => a * 10 + (c.toNat - 48)) 0

/-- Fueled binary logarithm; with fuel at least `n` it computes
`Nat.log2 n` by structural recursion the kernel can evaluate. -/
def log2f : Nat → Nat → Nat
  | 0, _ => 0
  | fuel + 1, n => if 2 ≤ n then log2f fuel (n / 2) + 1 else 0

/-- Binary logarithm (position of the leading binary digit). -/
def nlog2 (n : Nat) : Nat := log2f n n

/-- Round `a / b` (with `b > 0`) to the nearest natural, ties to even. -/
def rheNat (a b : Nat) : Nat :=
  if b < 2 * (a % b) then a / b + 1
  else if 2 * (a % b) < b then a / b
  else if a / b % 2 = 0 then a / b else a / b + 1

/-- `2 ^ e` as a rational, for an integer exponent. -/
def pow2 (e : Int) : ℚ :=
  if 0 ≤ e then ((2 ^ e.toNat : Nat) : ℚ) else ((2 ^ (-e).toNat : Nat) : ℚ)⁻¹

/-- Leading binary-digit position of a positive rational: the unique
`e` with `2 ^ e ≤ q < 2 ^ (e + 1)`. -/
def qexp (q : ℚ) : Int :=
  if pow2 ((nlog2 q.num.natAbs : Int) - (nlog2 q.den : Int)) ≤ q then
    (nlog2 q.num.natAbs : Int) - (nlog2 q.den : Int)
  else (nlog2 q.num.natAbs : Int) - (nlog2 q.den : Int) - 1

/-- The IEEE-754 binary64 value (round to nearest, ties to even)
nearest a positive rational, as an exact rational: the scaled mantissa
`q / 2 ^ (qexp q - 52)` lies in `[2 ^ 52, 2 ^ 53)`; round it half to
even and rescale.  Non-positive input gives 0.  The pipeline only
rounds values far from binary64 overflow and underflow, so those are
not modelled. -/
def roundD (q : ℚ) : ℚ :=
  if q ≤ 0 then 0
  else if qexp q ≤ 52 then
    ((rheNat (q.num.natAbs * 2 ^ (52 - qexp q).toNat) q.den : Nat) : ℚ)
      * pow2 (qexp q - 52)
  else
    ((rheNat q.num.natAbs (q.den * 2 ^ (qexp q - 52).toNat) : Nat) : ℚ)
      * pow2 (qexp q - 52)

/-- `int(x)` on a non-negative double value: truncation toward zero. -/
def truncD (q : ℚ) : Nat := ⌊q⌋.toNat

/-- `min(100, int((p / t) * 100))` as CPython evaluates it at
`main.py:246`: `p / t` is the correctly rounded double quotient, its
product with the exact double 100.0 is correctly rounded, and `int`
truncates.  This can differ from the exact `min(100, p * 100 / t)`:
for example `pyProgress 29 50 = 57` while the exact floor is 58. -/
def pyProgress (p t : Nat) : Nat :=
  min 100 (truncD (roundD (roundD ((p : ℚ) / (t : ℚ)) * 100)))

/-- `int(float(prefix) * mult)` as CPython evaluates it at
`main.py:390-392` for a decimal prefix of value `m / 10 ^ k`: `float`
correctly rounds the decimal to a double, the product with the exact
double `mult` is correctly rounded, and `int` truncates.  This can
differ from the exact value: `pyScaled 1005 3 1000 = 1004`, one below
the exact 1005. -/
def pyScaled (m k mult : Nat) : Nat :=
  truncD (roundD (roundD ((m : ℚ) / ((10 ^ k : Nat) : ℚ)) * (mult : ℚ)))

/-- Python `float()` restricted to the unsigned decimal numerals the
bitrate strings use: digits with at most one dot.  Returns the numeral
as `(mantissa, fracDigits)` whose value is `mantissa / 10 ^ fracDigits`,
or `none` when `float()` would raise `ValueError`. -/
def parseDecimal (cs : List Char) : Option (Nat × Nat) :=
  let ip := cs.takeWhile Char.isDigit
  match cs.dropWhile Char.isDigit with
  | [] => if ip = [] then none else some (natOfDigits ip, 0)
  | c :: fp =>
    if c = '.' ∧ fp.all Char.isDigit ∧ (ip ≠ [] ∨ fp ≠ []) then
      some (natOfDigits (ip ++ fp), fp.length)
    else none

/-- Python `int()` on a string, restricted to unsigned digit numerals;
`none` when `int()` would raise `ValueError`. -/
def parsePyInt (cs : List Char) : Option Nat :=
  if cs ≠ [] ∧ cs.all Char.isDigit then some (natOfDigits cs) else none

/-- `VideoCompressionWorker.parse_bitrate` on the character list:
uppercase, then a `K` suffix scales the `float`-parsed prefix by 1000
and an `M` suffix by 1000000 in double arithmetic with `int`
truncation, else `int`. -/
def parseBitrateCore (cs : List Char) : Option Nat :=
  let u := cs.map Char.toUpper
  match u.getLast? with
  | some 'K' => (parseDecimal u.dropLast).map fun p => pyScaled p.1 p.2 1000
  | some 'M' => (parseDecimal u.dropLast).map fun p => pyScaled p.1 p.2 1000000
  | _ => parsePyInt u

/-- `VideoCompressionWorker.parse_bitrate`.  `none` models the raised
`ValueError` on a malformed string. -/
def parse_bitrate (bitrate_str : String) : Option Nat :=
  parseBitrateCore bitrate_str.toList

/-- `VideoCompressionWorker.get_resolution_dimensions`: the fixed table
with the silent `(1920, 1080)` default of `resolutions.get(...)`. -/
def get_resolution_dimensions (resolution : String) : Nat × Nat :=
  if resolution = "1080p" then (1920, 1080)
  else if resolution = "720p" then (1280, 720)
  else if resolution = "480p" then (854, 480)
  else (1920, 1080)

/-- Output dimensions chosen in `setup_video_encoder`: copied from the
input stream for `"original"`, else from the resolution table. -/
def output_dims (st : CompressionSettings) (input_stream : VideoStreamInfo) : Nat × Nat :=
  if st.resolution = "original" then (input_stream.width, input_stream.height)
  else get_resolution_dimensions st.resolution

/-- `VideoCompressionWorker.resize_frame`: reformat to the resolution
table dimensions (the frame content is irrelevant to the pipeline). -/
def resize_frame (st : CompressionSettings) (_frame : Frame) : Frame :=
  let wh := get_resolution_dimensions st.resolution
  ⟨wh.1, wh.2⟩

/-- The configured output video stream: everything `setup_video_encoder`
assigns on `output_stream` and its `codec_context`. -/
structure VideoOutConfig where
  encoder : String
  width : Nat
  height : Nat
  rate : Nat
  pix_fmt : String
  options : List (String × String)
  bit_rate : Option Nat
  thread_count : Option Nat
deriving DecidableEq

/-- `VideoCompressionWorker.setup_video_encoder`.  `add_stream` failure
is the `env.addStreamOk` oracle; `int(self.settings.fps)` and
`parse_bitrate` can also raise, making the attempt fail.  The CRF
option keys follow the nvenc / qsv / software split of the source. -/
def setup_video_encoder (env : Env) (st : CompressionSettings)
    (input_stream : VideoStreamInfo) (encoder_name : String) :
    Except String VideoOutConfig :=
  if env.addStreamOk encoder_name then
    let wh := output_dims st input_stream
    let rate? : Except String Nat :=
      if st.fps = "original" then
        if truthyNat input_stream.average_rate then
          .ok (input_stream.average_rate.getD 0)
        else if truthyNat input_stream.base_rate then
          .ok (input_stream.base_rate.getD 0)
        else .ok 30
      else
        match st.fps.toNat? with
        | some n => .ok n
        | none => .error ("invalid literal for int: " ++ st.fps)
    match rate? with
    | .error e => .error e
    | .ok rate =>
      if st.quality_mode = "crf" then
        let opts :=
          if strContains encoder_name "nvenc" then
            (if strContains encoder_name "h264_nvenc" then
               [("crf", toString st.crf_value)]
             else
               [("cq", toString st.crf_value)]) ++ [("preset", "medium")]
          else if strContains encoder_name "qsv" then
            [("global_quality", toString st.crf_value)]
          else
            [("crf", toString st.crf_value), ("preset", st.preset)]
        .ok ⟨encoder_name, wh.1, wh.2, rate, "yuv420p", opts, none,
             if st.threads > 0 then some st.threads else none⟩
      else
        match parse_bitrate st.bitrate with
        | some b =>
          .ok ⟨encoder_name, wh.1, wh.2, rate, "yuv420p", [], some b,
               if st.threads > 0 then some st.threads else none⟩
        | none => .error ("could not convert string to bitrate: " ++ st.bitrate)
  else
    .error ("Failed to create stream with encoder " ++ encoder_name)

/-- The configured output audio stream of `setup_audio_encoder`. -/
structure AudioOutConfig where
  codec : String
  sample_rate : Nat
  layout : String
  bit_rate : Nat
deriving DecidableEq

/-- `VideoCompressionWorker.setup_audio_encoder`: copy sample rate and
layout from the input stream with the 44100 / stereo fallbacks, set the
parsed audio bitrate.  Any error here is not retried. -/
def setup_audio_encoder (env : Env) (st : CompressionSettings)
    (input_stream : AudioStreamInfo) : Except String AudioOutConfig :=
  if env.addAudioStreamOk st.audio_codec then
    let sr :=
      match input_stream.sample_rate with
      | some r => r
      | none =>
        match input_stream.rate with
        | some r => r
        | none => 44100
    let layout := input_stream.layout.getD "stereo"
    match parse_bitrate st.audio_bitrate with
    | some b => .ok ⟨st.audio_codec, sr, layout, b⟩
    | none => .error ("could not convert string to bitrate: " ++ st.audio_bitrate)
  else
    .error ("Failed to create stream with encoder " ++ st.audio_codec)

/-- The fallback loop at `main.py:207-217`: try each candidate in order,
emitting the attempt / success / failure status strings, stopping at the
first configured stream. -/
def tryEncoders (env : Env) (st : CompressionSettings) (vs : VideoStreamInfo) :
    List String → List String × Option VideoOutConfig
  | [] => ([], none)
  | e :: rest =>
    match setup_video_encoder env st vs e with
    | .ok cfg => (["Attempting encoder: " ++ e, "✅ Using encoder: " ++ e], some cfg)
    | .error m =>
      let r := tryEncoders env st vs rest
      (("Attempting encoder: " ++ e) ::
         ("❌ Encoder " ++ e ++ " failed: " ++ m) :: r.1, r.2)

/-- Audio negotiation at `main.py:223-227`: only when an audio stream
exists; the first audio setup error aborts the run. -/
def audioSetupResult (env : Env) (st : CompressionSettings) (inp : InputFile) :
    Except String (Option AudioOutConfig) :=
  match inp.audioStreams with
  | [] => .ok none
  | a :: _ => (setup_audio_encoder env st a).map some

/-- Frame-count estimation at `main.py:183-192`: metadata count if
nonzero, else duration times (average or assumed 30) rate, else 1000. -/
def totalFramesOf (vs : VideoStreamInfo) : Nat :=
  if vs.frames ≠ 0 then vs.frames
  else if truthyNat vs.duration then
    if truthyNat vs.average_rate then (vs.duration.getD 0) * (vs.average_rate.getD 0)
    else (vs.duration.getD 0) * 30
  else 1000

/-- Observable outputs of the video frame loop at `main.py:233-250`. -/
structure VideoLoopOut where
  statuses : List String
  progresses : List Nat
  sent : List Frame
  muxed : List Packet
  processed : Nat
  flagIdx : Nat
  error : Option String
deriving DecidableEq

/-- The video frame loop: per iteration it reads the cancellation flag
(breaking when set), resizes when a non-original resolution was
requested, encodes and muxes, increments the counter, emits
`min(100, int((processed/total)*100))`, and a status every 30 frames.
The counter and the flag-read index advance in lockstep from 0. -/
def videoLoop (env : Env) (st : CompressionSettings) (total : Nat) (flag : Nat → Bool) :
    List Frame → Nat → Nat → VideoLoopOut
  | [], processed, fi =>
    { statuses := [], progresses := [], sent := [], muxed := [],
      processed := processed, flagIdx := fi, error := none }
  | f :: rest, processed, fi =>
    if flag fi then
      { statuses := [], progresses := [], sent := [], muxed := [],
        processed := processed, flagIdx := fi + 1, error := none }
    else
      let f' := if st.resolution != "original" then resize_frame st f else f
      if env.encodeFails processed then
        { statuses := [], progresses := [], sent := [f'], muxed := [],
          processed := processed, flagIdx := fi + 1, error := some "encode error" }
      else
        let r := videoLoop env st total flag rest (processed + 1) (fi + 1)
        { statuses :=
            (if (processed + 1) % 30 = 0 then
               ["Processed " ++ toString (processed + 1) ++ "/" ++
                  toString total ++ " frames"]
             else []) ++ r.statuses,
          progresses := pyProgress (processed + 1) total :: r.progresses,
          sent := f' :: r.sent,
          muxed := env.encodePackets processed ++ r.muxed,
          processed := r.processed, flagIdx := r.flagIdx, error := r.error }

/-- The audio frame loop at `main.py:255-259`: flag check per iteration,
encode and mux, no resize, no progress. -/
def audioLoop (env : Env) (flag : Nat → Bool) :
    List Frame → Nat → Nat → List Packet × Nat
  | [], _n, fi => ([], fi)
  | _f :: rest, n, fi =>
    if flag fi then ([], fi + 1)
    else
      let r := audioLoop env flag rest (n + 1) (fi + 1)
      (env.audioEncodePackets n ++ r.1, r.2)

/-- Which of the three terminal emissions at `main.py:278-288` ended the
run. -/
inductive ExitKind where
  | success
  | cancelledExit
  | failure (msg : String)
deriving DecidableEq

/-- `true` exactly on the `failure` exit. -/
def isFailureExit : ExitKind → Bool
  | .failure _ => true
  | _ => false

/-- Everything observable about one `run`: the two event streams, the
single terminal `(success, message)` emission, which resources were
opened and explicitly closed, the frame counters, the configured-stream
flag, the frames handed to `encode`, and the muxed packets split into
the main-loop part and the flush part. -/
structure RunResult where
  statusEvents : List String
  progressEvents : List Nat
  terminal : Bool × String
  exitKind : ExitKind
  inputOpened : Bool
  outputOpened : Bool
  inputClosed : Bool
  outputClosed : Bool
  processedFrames : Nat
  totalFrames : Nat
  videoStreamConfigured : Bool
  sentFrames : List Frame
  muxedMain : List Packet
  muxedFlush : List Packet
deriving DecidableEq

/-- The `except` branch at `main.py:285-288`: prefix the cause with
`Compression failed: `, emit it as a status and as the terminal event.
The `finally` block only calls `gc.collect()`, so the explicit
`close()` calls of the `try` body have not run on this path. -/
def failResult (pre : List String) (prog : List Nat) (inOpened outOpened : Bool)
    (processed total : Nat) (vcfg : Bool) (sent : List Frame)
    (mm : List Packet) (msg : String) : RunResult :=
  { statusEvents := pre ++ ["Compression failed: " ++ msg]
    progressEvents := prog
    terminal := (false, "Compression failed: " ++ msg)
    exitKind := .failure msg
    inputOpened := inOpened
    outputOpened := outOpened
    inputClosed := false
    outputClosed := false
    processedFrames := processed
    totalFrames := total
    videoStreamConfigured := vcfg
    sentFrames := sent
    muxedMain := mm
    muxedFlush := [] }

/-- Lines `main.py:274-288`: close both containers, then emit the
cancelled terminal event when the flag is set, else the success status,
forced progress 100 and the success terminal event. -/
def closeAndFinish (statuses : List String) (lo : VideoLoopOut) (total : Nat)
    (mm mf : List Packet) (cancelledFlag : Bool) : RunResult :=
  if cancelledFlag then
    { statusEvents := statuses
      progressEvents := lo.progresses
      terminal := (false, "Compression cancelled by user")
      exitKind := .cancelledExit
      inputOpened := true, outputOpened := true
      inputClosed := true, outputClosed := true
      processedFrames := lo.processed
      totalFrames := total
      videoStreamConfigured := true
      sentFrames := lo.sent
      muxedMain := mm
      muxedFlush := mf }
  else
    { statusEvents := statuses ++ ["Compression completed successfully!"]
      progressEvents := lo.progresses ++ [100]
      terminal := (true, "Compression completed successfully!")
      exitKind := .success
      inputOpened := true, outputOpened := true
      inputClosed := true, outputClosed := true
      processedFrames := lo.processed
      totalFrames := total
      videoStreamConfigured := true
      sentFrames := lo.sent
      muxedMain := mm
      muxedFlush := mf }

/-- The tail of `run` from the frame loops onward (`main.py:229-288`),
given the accumulated statuses, the frame-count estimate and the
negotiated audio stream (if any).  The flag-read order is: one read per
video-loop iteration, one per audio-loop iteration, one before flushing
(`main.py:262`), one before the terminal emission (`main.py:278`). -/
def runFromLoop (env : Env) (inp : InputFile) (st : CompressionSettings)
    (flag : Nat → Bool) (total : Nat) (acfg : Option AudioOutConfig)
    (pre : List String) : RunResult :=
  match (videoLoop env st total flag inp.videoFrames 0 0).error with
  | some m =>
    failResult (pre ++ (videoLoop env st total flag inp.videoFrames 0 0).statuses)
      (videoLoop env st total flag inp.videoFrames 0 0).progresses true true
      (videoLoop env st total flag inp.videoFrames 0 0).processed total
      true (videoLoop env st total flag inp.videoFrames 0 0).sent
      (videoLoop env st total flag inp.videoFrames 0 0).muxed m
  | none =>
    match acfg with
    | none =>
      if flag (videoLoop env st total flag inp.videoFrames 0 0).flagIdx then
        closeAndFinish
          (pre ++ (videoLoop env st total flag inp.videoFrames 0 0).statuses)
          (videoLoop env st total flag inp.videoFrames 0 0) total
          (videoLoop env st total flag inp.videoFrames 0 0).muxed []
          (flag ((videoLoop env st total flag inp.videoFrames 0 0).flagIdx + 1))
      else
        closeAndFinish
          (pre ++ (videoLoop env st total flag inp.videoFrames 0 0).statuses ++
            ["Finalizing..."])
          (videoLoop env st total flag inp.videoFrames 0 0) total
          (videoLoop env st total flag inp.videoFrames 0 0).muxed
          env.flushVideoPackets
          (flag ((videoLoop env st total flag inp.videoFrames 0 0).flagIdx + 1))
    | some _ =>
      if flag (audioLoop env flag inp.audioFrames 0
          (videoLoop env st total flag inp.videoFrames 0 0).flagIdx).2 then
        closeAndFinish
          (pre ++ (videoLoop env st total flag inp.videoFrames 0 0).statuses ++
            ["Processing audio..."])
          (videoLoop env st total flag inp.videoFrames 0 0) total
          ((videoLoop env st total flag inp.videoFrames 0 0).muxed ++
            (audioLoop env flag inp.audioFrames 0
              (videoLoop env st total flag inp.videoFrames 0 0).flagIdx).1) []
          (flag ((audioLoop env flag inp.audioFrames 0
            (videoLoop env st total flag inp.videoFrames 0 0).flagIdx).2 + 1))
      else
        closeAndFinish
          (pre ++ (videoLoop env st total flag inp.videoFrames 0 0).statuses ++
            ["Processing audio...", "Finalizing..."])
          (videoLoop env st total flag inp.videoFrames 0 0) total
          ((videoLoop env st total flag inp.videoFrames 0 0).muxed ++
            (audioLoop env flag inp.audioFrames 0
              (videoLoop env st total flag inp.videoFrames 0 0).flagIdx).1)
          (env.flushVideoPackets ++ env.flushAudioPackets)
          (flag ((audioLoop env flag inp.audioFrames 0
            (videoLoop env st total flag inp.videoFrames 0 0).flagIdx).2 + 1))

/-- The three status strings emitted before encoder negotiation at
`main.py:168`, `main.py:194` and `main.py:198`. -/
def preStatuses (env : Env) (st : CompressionSettings) (v : VideoStreamInfo) :
    List String :=
  ["Initializing compression...",
   "Processing " ++ toString (totalFramesOf v) ++ " frames...",
   "Trying encoder: " ++ get_optimal_encoder env.availableEncoders st.codec]

/-- `VideoCompressionWorker.run`: validate the input path, open input,
take the first video stream (an empty tuple raises the index error),
estimate the frame count, open output, negotiate the video encoder over
the attempt plan, negotiate audio, then hand over to the loop tail.
Every raised exception lands in `failResult`. -/
def run (env : Env) (inp : InputFile) (st : CompressionSettings)
    (flag : Nat → Bool) : RunResult :=
  if inp.inputExists then
    match inp.videoStreams with
    | [] =>
      failResult ["Initializing compression..."] [] true false 0 0 false [] []
        "tuple index out of range"
    | v :: _ =>
      if env.openOutputOk then
        match (tryEncoders env st v (attemptPlan env.availableEncoders st)).2 with
        | none =>
          failResult
            (preStatuses env st v ++
              (tryEncoders env st v (attemptPlan env.availableEncoders st)).1)
            [] true true 0 (totalFramesOf v) false [] []
            "No working video encoder found"
        | some _ =>
          match audioSetupResult env st inp with
          | .error m =>
            failResult
              (preStatuses env st v ++
                (tryEncoders env st v (attemptPlan env.availableEncoders st)).1)
              [] true true 0 (totalFramesOf v) true [] [] m
          | .ok acfg =>
            runFromLoop env inp st flag (totalFramesOf v) acfg
              (preStatuses env st v ++
                (tryEncoders env st v (attemptPlan env.availableEncoders st)).1)
      else
        failResult (preStatuses env st v) [] true false 0 (totalFramesOf v)
          false [] [] ("could not open output file " ++ st.output_file)
  else
    failResult ["Initializing compression..."] [] false false 0 0 false [] []
      ("Input file not found: " ++ st.input_file)

/-- Packets produced by encoding frames `p, p+1, ..., p+n-1`, in order;
the main-loop mux sequence of a run that processed those frames. -/
def muxOfRange (env : Env) (p n : Nat) : List Packet :=
  match n with
  | 0 => []
  | n + 1 => env.encodePackets p ++ muxOfRange env (p + 1) n

/-- The per-frame progress values `pyProgress i total` for
`i = p+1, ..., p+n`, in emission order. -/
def progListFrom (total p n : Nat) : List Nat :=
  match n with
  | 0 => []
  | n + 1 => pyProgress (p + 1) total :: progListFrom total (p + 1) n

/-- The terminal `(success, message)` event determined by the exit kind,
as emitted at `main.py:279`, `main.py:283` and `main.py:288`. -/
def exitTerminal : ExitKind → Bool × String
  | .success => (true, "Compression completed successfully!")
  | .cancelledExit => (false, "Compression cancelled by user")
  | .failure m => (false, "Compression failed: " ++ m)

/-- An environment in which every PyAV operation succeeds; frame `i`
encodes to the single packet `i` and flushing yields packet 997 for
video and 998 for audio. -/
def envAllOk : Env :=
  { availableEncoders := fun _ => true
    openOutputOk := true
    addStreamOk := fun _ => true
    addAudioStreamOk := fun _ => true
    encodeFails := fun _ => false
    encodePackets := fun i => [i]
    audioEncodePackets := fun i => [500 + i]
    flushVideoPackets := [997]
    flushAudioPackets := [998] }

/-- The all-succeed environment except that `add_stream` fails for
every video encoder name: total encoder exhaustion. -/
def envNoEncoder : Env := { envAllOk with addStreamOk := fun _ => false }

/-- A 640x480 input video stream whose metadata reports two frames. -/
def vsSmall : VideoStreamInfo := ⟨2, none, none, none, 640, 480⟩

/-- An existing input file with one video stream, two video frames and
no audio. -/
def inpSmall : InputFile := ⟨true, [vsSmall], [], [⟨640, 480⟩, ⟨640, 480⟩], []⟩

/-- A cancellation-flag trace that is never set. -/
def flagNever : Nat → Bool := fun _ => false

/-- A cancellation-flag trace set before the run starts. -/
def flagAlways : Nat → Bool := fun _ => true

/-- A cancellation-flag trace first observed at the second read. -/
def flagFromOne : Nat → Bool := fun i => decide (1 ≤ i)

/-- The video stream configuration that negotiation produces for
`vsSmall` under default settings in the all-succeed environment. -/
def cfgSmall : VideoOutConfig :=
  ⟨"libx264", 640, 480, 30, "yuv420p", [("crf", "23"), ("preset", "medium")], none, none⟩

/-- An existing input whose stream metadata reports 50 frames while the
demuxer yields 29 video frames; no audio.  At the 29th frame CPython's
double arithmetic emits progress 57 where the exact floor is 58. -/
def inpProg : InputFile :=
  ⟨true, [⟨50, none, none, none, 640, 480⟩], [], List.replicate 29 ⟨640, 480⟩, []⟩

theorem log2f_bounds :
    ∀ (fuel n : Nat), 1 ≤ n → n ≤ fuel →
      2 ^ log2f fuel n ≤ n ∧ n < 2 ^ (log2f fuel n + 1) := by
  intro fuel
  induction fuel with
  | zero => intro n h1 h2; omega
  | succ f ih =>
    intro n h1 h2
    by_cases h : 2 ≤ n
    · have hrec := ih (n / 2) (by omega) (by omega)
      simp only [log2f, h, if_true]
      constructor
      · calc 2 ^ (log2f f (n / 2) + 1) = 2 * 2 ^ log2f f (n / 2) := by ring
        _ ≤ 2 * (n / 2) := by omega
        _ ≤ n := by omega
      · calc n < 2 * (n / 2) + 2 := by omega
        _ ≤ 2 * 2 ^ (log2f f (n / 2) + 1) := by omega
        _ = 2 ^ (log2f f (n / 2) + 1 + 1) := by ring
    · simp only [log2f, h, if_false]
      omega

theorem nlog2_bounds (n : Nat) (h : 1 ≤ n) :
    2 ^ nlog2 n ≤ n ∧ n < 2 ^ (nlog2 n + 1) :=
  log2f_bounds n n h (le_refl n)

theorem pow2_eq_zpow (e : Int) : pow2 e = (2 : ℚ) ^ e := by
  unfold pow2
  split
  · rename_i h
    rw [show ((2 ^ e.toNat : Nat) : ℚ) = (2 : ℚ) ^ e.toNat by push_cast; ring,
      ← zpow_natCast, Int.toNat_of_nonneg h]
  · rename_i h
    rw [show ((2 ^ (-e).toNat : Nat) : ℚ) = (2 : ℚ) ^ (-e).toNat by push_cast; ring,
      ← zpow_natCast, Int.toNat_of_nonneg (by omega), zpow_neg, inv_inv]

theorem pow2_pos (e : Int) : 0 < pow2 e := by
  rw [pow2_eq_zpow]; exact zpow_pos (by norm_num) e

theorem pow2_mono {e f : Int} (h : e ≤ f) : pow2 e ≤ pow2 f := by
  rw [pow2_eq_zpow, pow2_eq_zpow]
  exact zpow_le_zpow_right₀ (by norm_num) h

theorem pow2_lt_reverse {e f : Int} (h : pow2 e < pow2 f) : e < f := by
  by_contra hc
  exact absurd (pow2_mono (by omega : f ≤ e)) (not_le.mpr h)

theorem pow2_add (e f : Int) : pow2 (e + f) = pow2 e * pow2 f := by
  rw [pow2_eq_zpow, pow2_eq_zpow, pow2_eq_zpow, zpow_add₀ (by norm_num : (2:ℚ) ≠ 0)]

theorem pow2_natCast (n : Nat) : pow2 (n : Int) = ((2 ^ n : Nat) : ℚ) := by
  unfold pow2
  rw [if_pos (by omega)]
  simp

theorem qexp_spec (q : ℚ) (hq : 0 < q) :
    pow2 (qexp q) ≤ q ∧ q < pow2 (qexp q + 1) := by
  set a := q.num.natAbs with hadef
  set b := q.den with hbdef
  have ha1 : 1 ≤ a := by
    have := Rat.num_pos.mpr hq
    omega
  have hb1 : 1 ≤ b := q.den_pos
  obtain ⟨hla, hla'⟩ := nlog2_bounds a ha1
  obtain ⟨hlb, hlb'⟩ := nlog2_bounds b hb1
  have hbQ : (0 : ℚ) < (b : ℚ) := by exact_mod_cast hb1
  have hq_eq : q = (a : ℚ) / (b : ℚ) := by
    rw [hadef, hbdef]
    rw [Int.cast_natAbs]
    rw [abs_of_nonneg (by exact_mod_cast (Rat.num_pos.mpr hq).le)]
    exact (Rat.num_div_den q).symm
  set la := nlog2 a with hladef
  set lb := nlog2 b with hlbdef
  set c : Int := (la : Int) - (lb : Int) with hcdef
  have hupper : q < pow2 (c + 1) := by
    rw [hq_eq, div_lt_iff₀ hbQ]
    calc (a : ℚ) < ((2 ^ (la + 1) : Nat) : ℚ) := by exact_mod_cast hla'
    _ = pow2 ((la : Int) + 1) := by rw [← pow2_natCast]; norm_cast
    _ = pow2 (c + 1) * pow2 (lb : Int) := by
        rw [← pow2_add]; congr 1; omega
    _ = pow2 (c + 1) * ((2 ^ lb : Nat) : ℚ) := by rw [pow2_natCast]
    _ ≤ pow2 (c + 1) * (b : ℚ) :=
        mul_le_mul_of_nonneg_left (by exact_mod_cast hlb) (pow2_pos _).le
  have hlower : pow2 (c - 1) < q := by
    rw [hq_eq, lt_div_iff₀ hbQ]
    calc pow2 (c - 1) * (b : ℚ) < pow2 (c - 1) * ((2 ^ (lb + 1) : Nat) : ℚ) :=
        mul_lt_mul_of_pos_left (by exact_mod_cast hlb') (pow2_pos _)
    _ = pow2 (c - 1) * pow2 ((lb : Int) + 1) := by rw [← pow2_natCast]; norm_cast
    _ = pow2 (la : Int) := by rw [← pow2_add]; congr 1; omega
    _ = ((2 ^ la : Nat) : ℚ) := pow2_natCast la
    _ ≤ (a : ℚ) := by exact_mod_cast hla
  unfold qexp
  rw [← hadef, ← hbdef, ← hladef, ← hlbdef, ← hcdef]
  split
  · rename_i h
    exact ⟨h, hupper⟩
  · rename_i h
    refine ⟨hlower.le, ?_⟩
    have hc : c - 1 + 1 = c := by omega
    rw [hc]
    exact lt_of_not_le h

theorem rheNat_dist (a b : Nat) (hb : 0 < b) :
    |((rheNat a b : Nat) : ℚ) - (a : ℚ) / (b : ℚ)| ≤ 1 / 2 := by
  obtain ⟨qn, r, hr, rfl⟩ : ∃ qn r, r < b ∧ a = b * qn + r :=
    ⟨a / b, a % b, Nat.mod_lt a hb, (Nat.div_add_mod a b).symm⟩
  have hq : (b * qn + r) / b = qn := by
    rw [Nat.mul_add_div hb, Nat.div_eq_of_lt hr, Nat.add_zero]
  have hm : (b * qn + r) % b = r := by
    rw [Nat.mul_add_mod, Nat.mod_eq_of_lt hr]
  have hbQ : (0 : ℚ) < (b : ℚ) := by exact_mod_cast hb
  have hab : ((b * qn + r : ℕ) : ℚ) / (b : ℚ) = (qn : ℚ) + (r : ℚ) / b := by
    push_cast
    field_simp
    ring
  have hlt1 : (r : ℚ) / b < 1 := by
    rw [div_lt_one hbQ]
    exact_mod_cast hr
  have hge0 : 0 ≤ (r : ℚ) / b := by positivity
  unfold rheNat
  rw [hq, hm, hab]
  split
  · rename_i hc
    have hcQ : 1 / 2 < (r : ℚ) / b := by
      rw [lt_div_iff₀ hbQ]
      have : (b : ℚ) < 2 * r := by exact_mod_cast hc
      linarith
    push_cast
    rw [abs_le]
    constructor <;> linarith
  · split
    · rename_i h2
      have hcQ : (r : ℚ) / b ≤ 1 / 2 := by
        rw [div_le_iff₀ hbQ]
        have : 2 * (r : ℚ) ≤ b := by exact_mod_cast h2.le
        linarith
      rw [abs_le]
      constructor <;> linarith
    · rename_i h1 h2
      have htie : (r : ℚ) / b = 1 / 2 := by
        have hbe : b = 2 * r := by omega
        rw [hbe]
        have hr0 : (0 : ℚ) < (r : ℚ) := by
          have : 0 < r := by omega
          exact_mod_cast this
        push_cast
        rw [div_eq_iff (by linarith)]
        ring
      split <;> (push_cast; rw [abs_le]; constructor <;> linarith)

theorem roundD_core (A B : Nat) (u q : ℚ) (hB : 0 < B) (hu : 0 < u)
    (hq : q = ((A : ℚ) / (B : ℚ)) * u)
    (hlo : ((2 : ℚ) ^ (52 : Nat)) ≤ (A : ℚ) / B)
    (hhi : ((A : ℚ) / B) < (2 : ℚ) ^ (53 : Nat)) :
    |((rheNat A B : Nat) : ℚ) * u - q| ≤ u / 2 ∧
    2 ^ 52 ≤ rheNat A B ∧ rheNat A B ≤ 2 ^ 53 := by
  have hdist := rheNat_dist A B hB
  have hd1 : ((rheNat A B : Nat) : ℚ) ≥ (A : ℚ) / B - 1 / 2 := by
    have := abs_le.mp hdist
    linarith [this.1]
  have hd2 : ((rheNat A B : Nat) : ℚ) ≤ (A : ℚ) / B + 1 / 2 := by
    have := abs_le.mp hdist
    linarith [this.2]
  refine ⟨?_, ?_, ?_⟩
  · rw [hq, show ((rheNat A B : Nat) : ℚ) * u - (A : ℚ) / B * u
        = (((rheNat A B : Nat) : ℚ) - (A : ℚ) / B) * u by ring, abs_mul,
      abs_of_pos hu]
    calc |((rheNat A B : Nat) : ℚ) - (A : ℚ) / B| * u ≤ (1 / 2) * u :=
          mul_le_mul_of_nonneg_right hdist hu.le
    _ = u / 2 := by ring
  · by_contra hc
    push_neg at hc
    have : ((rheNat A B : Nat) : ℚ) ≤ (2 : ℚ) ^ (52 : Nat) - 1 := by
      have : (rheNat A B : Nat) ≤ 2 ^ 52 - 1 := by omega
      calc ((rheNat A B : Nat) : ℚ) ≤ (((2 ^ 52 - 1 : Nat) : ℚ)) := by exact_mod_cast this
      _ = (2 : ℚ) ^ (52 : Nat) - 1 := by push_cast; ring
    linarith
  · by_contra hc
    push_neg at hc
    have : ((2 : ℚ) ^ (53 : Nat)) + 1 ≤ ((rheNat A B : Nat) : ℚ) := by
      have : 2 ^ 53 + 1 ≤ (rheNat A B : Nat) := by omega
      calc ((2 : ℚ) ^ (53 : Nat)) + 1 = (((2 ^ 53 + 1 : Nat) : ℚ)) := by push_cast; ring
      _ ≤ ((rheNat A B : Nat) : ℚ) := by exact_mod_cast this
    linarith

theorem pow2_toNat {e : Int} (h : 0 ≤ e) : ((2 ^ e.toNat : Nat) : ℚ) = pow2 e := by
  unfold pow2
  rw [if_pos h]

theorem pow2_toNat' {e : Int} (h : 0 ≤ e) : (2 : ℚ) ^ e.toNat = pow2 e := by
  rw [← pow2_toNat h]
  push_cast
  ring

theorem pow2_52 : pow2 52 = (2 : ℚ) ^ (52 : Nat) := by
  rw [← pow2_toNat' (by omega : (0:Int) ≤ 52), show ((52:Int)).toNat = 52 from rfl]

theorem pow2_53 : pow2 53 = (2 : ℚ) ^ (53 : Nat) := by
  rw [← pow2_toNat' (by omega : (0:Int) ≤ 53), show ((53:Int)).toNat = 53 from rfl]

theorem num_natAbs_div_den (q : ℚ) (hq : 0 < q) :
    q = (q.num.natAbs : ℚ) / (q.den : ℚ) := by
  rw [Int.cast_natAbs]
  rw [abs_of_nonneg (by exact_mod_cast (Rat.num_pos.mpr hq).le)]
  exact (Rat.num_div_den q).symm

theorem roundD_charac (q : ℚ) (hq : 0 < q) :
    ∃ m : Nat, roundD q = (m : ℚ) * pow2 (qexp q - 52) ∧
      |roundD q - q| ≤ pow2 (qexp q - 52) / 2 ∧
      2 ^ 52 ≤ m ∧ m ≤ 2 ^ 53 := by
  obtain ⟨hql, hqu⟩ := qexp_spec q hq
  have hbQ : (0 : ℚ) < (q.den : ℚ) := by exact_mod_cast q.den_pos
  have hq_eq := num_natAbs_div_den q hq
  have hwu : pow2 (52 - qexp q) * pow2 (qexp q - 52) = 1 := by
    rw [← pow2_add, show (52 - qexp q) + (qexp q - 52) = 0 by omega]
    unfold pow2
    norm_num
  have hscale : q * pow2 (52 - qexp q) * pow2 (qexp q - 52) = q := by
    rw [mul_assoc, hwu, mul_one]
  have hlo : (2 : ℚ) ^ (52 : Nat) ≤ q * pow2 (52 - qexp q) := by
    have h52 : pow2 (52 : Int) = pow2 (qexp q) * pow2 (52 - qexp q) := by
      rw [← pow2_add]
      congr 1
      omega
    rw [← pow2_52, h52]
    exact mul_le_mul_of_nonneg_right hql (pow2_pos _).le
  have hhi : q * pow2 (52 - qexp q) < (2 : ℚ) ^ (53 : Nat) := by
    have h53 : pow2 (53 : Int) = pow2 (qexp q + 1) * pow2 (52 - qexp q) := by
      rw [← pow2_add]
      congr 1
      omega
    rw [← pow2_53, h53]
    exact mul_lt_mul_of_pos_right hqu (pow2_pos _)
  have hnum_eq : (q.num.natAbs : ℚ) = q * (q.den : ℚ) :=
    (div_eq_iff (ne_of_gt hbQ)).mp hq_eq.symm
  unfold roundD
  rw [if_neg (not_le.mpr hq)]
  split
  · rename_i hle
    have hAB : ((q.num.natAbs * 2 ^ (52 - qexp q).toNat : Nat) : ℚ) / (q.den : ℚ)
        = q * pow2 (52 - qexp q) := by
      have h2c : ((q.num.natAbs * 2 ^ (52 - qexp q).toNat : Nat) : ℚ)
          = (q.num.natAbs : ℚ) * pow2 (52 - qexp q) := by
        push_cast
        rw [pow2_toNat' (by omega : (0:Int) ≤ 52 - qexp q)]
      rw [h2c, hnum_eq]
      field_simp
      rw [show ((q.num : Int) : ℚ) = q * (q.den : ℚ) from
        (div_eq_iff (ne_of_gt hbQ)).mp (Rat.num_div_den q)]
      ring
    obtain ⟨hd, hm1, hm2⟩ := roundD_core (q.num.natAbs * 2 ^ (52 - qexp q).toNat) q.den
      (pow2 (qexp q - 52)) q q.den_pos (pow2_pos _)
      (by rw [hAB, hscale]) (by rw [hAB]; exact hlo) (by rw [hAB]; exact hhi)
    exact ⟨_, rfl, hd, hm1, hm2⟩
  · rename_i hgt
    push_neg at hgt
    have hB : 0 < q.den * 2 ^ (qexp q - 52).toNat := by positivity
    have hAB : ((q.num.natAbs : Nat) : ℚ) / ((q.den * 2 ^ (qexp q - 52).toNat : Nat) : ℚ)
        = q * pow2 (52 - qexp q) := by
      have hden_c : ((q.den * 2 ^ (qexp q - 52).toNat : Nat) : ℚ)
          = (q.den : ℚ) * pow2 (qexp q - 52) := by
        push_cast
        rw [pow2_toNat' (by omega : (0:Int) ≤ qexp q - 52)]
      rw [hden_c, hnum_eq,
        div_eq_iff (ne_of_gt (mul_pos hbQ (pow2_pos _)))]
      calc q * (q.den : ℚ)
          = q * (q.den : ℚ) * (pow2 (52 - qexp q) * pow2 (qexp q - 52)) := by
            rw [hwu, mul_one]
      _ = q * pow2 (52 - qexp q) * ((q.den : ℚ) * pow2 (qexp q - 52)) := by ring
    obtain ⟨hd, hm1, hm2⟩ := roundD_core q.num.natAbs (q.den * 2 ^ (qexp q - 52).toNat)
      (pow2 (qexp q - 52)) q hB (pow2_pos _)
      (by rw [hAB, hscale]) (by rw [hAB]; exact hlo) (by rw [hAB]; exact hhi)
    exact ⟨_, rfl, hd, hm1, hm2⟩

theorem roundD_nonpos (q : ℚ) (h : q ≤ 0) : roundD q = 0 := by
  unfold roundD
  rw [if_pos h]

theorem roundD_nonneg (q : ℚ) : 0 ≤ roundD q := by
  unfold roundD
  split
  · exact le_refl 0
  · split <;> exact mul_nonneg (Nat.cast_nonneg _) (pow2_pos _).le

theorem qexp_mono {q q' : ℚ} (hq : 0 < q) (h : q ≤ q') : qexp q ≤ qexp q' := by
  by_contra hc
  push_neg at hc
  have h1 := (qexp_spec q hq).1
  have h2 := (qexp_spec q' (lt_of_lt_of_le hq h)).2
  have h3 : pow2 (qexp q' + 1) ≤ pow2 (qexp q) := pow2_mono (by omega)
  linarith

theorem roundD_mono {q q' : ℚ} (h0 : 0 ≤ q) (h : q ≤ q') : roundD q ≤ roundD q' := by
  rcases eq_or_lt_of_le h0 with h0' | h0'
  · rw [← h0', roundD_nonpos 0 (le_refl 0)]
    exact roundD_nonneg q'
  · have hq' : 0 < q' := lt_of_lt_of_le h0' h
    obtain ⟨m, hm, hd, hm1, hm2⟩ := roundD_charac q h0'
    obtain ⟨m', hm', hd', hm1', hm2'⟩ := roundD_charac q' hq'
    have he := qexp_mono h0' h
    rcases eq_or_lt_of_le he with heq | hlt
    · by_contra hc
      push_neg at hc
      have hu : 0 < pow2 (qexp q - 52) := pow2_pos _
      have hmm : m' < m := by
        by_contra hmm
        push_neg at hmm
        apply absurd hc
        push_neg
        rw [hm, hm', ← heq]
        exact mul_le_mul_of_nonneg_right (by exact_mod_cast hmm) hu.le
      have hdq := abs_le.mp hd
      have hdq' := abs_le.mp hd'
      rw [hm] at hdq
      rw [hm', ← heq] at hdq'
      have e3 : (m' : ℚ) + 1 ≤ (m : ℚ) := by exact_mod_cast hmm
      have hqq : q' ≤ q := by nlinarith [hdq.1, hdq.2, hdq'.1, hdq'.2]
      have hqeq : q = q' := le_antisymm h hqq
      rw [hqeq] at hc
      exact absurd rfl (ne_of_gt hc)
    · rw [hm, hm']
      have s1 : (m : ℚ) * pow2 (qexp q - 52) ≤ (2:ℚ)^(53:Nat) * pow2 (qexp q - 52) := by
        apply mul_le_mul_of_nonneg_right _ (pow2_pos _).le
        exact_mod_cast hm2
      have s2 : (2:ℚ)^(53:Nat) * pow2 (qexp q - 52) = pow2 (qexp q + 1) := by
        rw [← pow2_53, ← pow2_add]
        congr 1
        omega
      have s3 : pow2 (qexp q + 1) ≤ pow2 (qexp q') := pow2_mono (by omega)
      have s4 : pow2 (qexp q') = (2:ℚ)^(52:Nat) * pow2 (qexp q' - 52) := by
        rw [← pow2_52, ← pow2_add]
        congr 1
        omega
      have s5 : (2:ℚ)^(52:Nat) * pow2 (qexp q' - 52) ≤ (m' : ℚ) * pow2 (qexp q' - 52) := by
        apply mul_le_mul_of_nonneg_right _ (pow2_pos _).le
        exact_mod_cast hm1'
      calc (m : ℚ) * pow2 (qexp q - 52) ≤ (2:ℚ)^(53:Nat) * pow2 (qexp q - 52) := s1
      _ = pow2 (qexp q + 1) := s2
      _ ≤ pow2 (qexp q') := s3
      _ = (2:ℚ)^(52:Nat) * pow2 (qexp q' - 52) := s4
      _ ≤ (m' : ℚ) * pow2 (qexp q' - 52) := s5

theorem roundD_int (n : Nat) (h1 : 1 ≤ n) (h2 : n < 2 ^ 53) : roundD (n : ℚ) = n := by
  have hq : (0 : ℚ) < (n : ℚ) := by exact_mod_cast h1
  obtain ⟨m, hm, hd, hm1, hm2⟩ := roundD_charac _ hq
  have he_le : qexp ((n : Nat) : ℚ) ≤ 52 := by
    by_contra hc
    push_neg at hc
    have hsp := (qexp_spec _ hq).1
    have : pow2 53 ≤ ((n : Nat) : ℚ) := le_trans (pow2_mono (by omega)) hsp
    rw [pow2_53] at this
    have : (2 : ℚ) ^ (53 : Nat) ≤ (n : ℚ) := this
    have hn2 : ((2 ^ 53 : Nat) : ℚ) ≤ (n : ℚ) := by push_cast; linarith
    have : (2 ^ 53 : Nat) ≤ n := by exact_mod_cast hn2
    omega
  set j : Nat := n * 2 ^ (52 - qexp ((n : Nat) : ℚ)).toNat with hjdef
  have hj : ((j : Nat) : ℚ) * pow2 (qexp ((n : Nat) : ℚ) - 52) = (n : ℚ) := by
    rw [hjdef]
    push_cast
    rw [pow2_toNat' (by omega : (0:Int) ≤ 52 - qexp ((n : Nat) : ℚ))]
    rw [mul_assoc, ← pow2_add, show (52 - qexp ((n : Nat) : ℚ))
      + (qexp ((n : Nat) : ℚ) - 52) = 0 by omega]
    unfold pow2
    norm_num
  have hu : 0 < pow2 (qexp ((n : Nat) : ℚ) - 52) := pow2_pos _
  have hmj : m = j := by
    by_contra hne
    have h1 : |((m : ℚ) - (j : ℚ)) * pow2 (qexp ((n : Nat) : ℚ) - 52)|
        ≤ pow2 (qexp ((n : Nat) : ℚ) - 52) / 2 := by
      rw [sub_mul, ← hm, hj]
      exact hd
    have habs : |(m : ℚ) - (j : ℚ)| * pow2 (qexp ((n : Nat) : ℚ) - 52)
        ≤ pow2 (qexp ((n : Nat) : ℚ) - 52) / 2 := by
      calc |(m : ℚ) - (j : ℚ)| * pow2 (qexp ((n : Nat) : ℚ) - 52)
          = |(m : ℚ) - (j : ℚ)| * |pow2 (qexp ((n : Nat) : ℚ) - 52)| := by
            rw [abs_of_pos hu]
      _ = |((m : ℚ) - (j : ℚ)) * pow2 (qexp ((n : Nat) : ℚ) - 52)| := (abs_mul _ _).symm
      _ ≤ pow2 (qexp ((n : Nat) : ℚ) - 52) / 2 := h1
    have hone : (1 : ℚ) ≤ |(m : ℚ) - (j : ℚ)| := by
      rcases Nat.lt_or_ge m j with hlt | hge
      · have hc1 : (m : ℚ) + 1 ≤ j := by exact_mod_cast hlt
        rw [abs_sub_comm, abs_of_nonneg (by linarith : (0:ℚ) ≤ (j : ℚ) - m)]
        linarith
      · have hgt : j < m := by omega
        have hc1 : (j : ℚ) + 1 ≤ m := by exact_mod_cast hgt
        rw [abs_of_nonneg (by linarith : (0:ℚ) ≤ (m : ℚ) - j)]
        linarith
    nlinarith
  rw [hm, hmj, hj]

theorem truncD_mono {q q' : ℚ} (h : q ≤ q') : truncD q ≤ truncD q' := by
  unfold truncD
  exact Int.toNat_le_toNat (Int.floor_le_floor h)

theorem pyProgress_le_100 (p t : Nat) : pyProgress p t ≤ 100 := min_le_left _ _

theorem pyProgress_mono (t : Nat) {p p' : Nat} (h : p ≤ p') :
    pyProgress p t ≤ pyProgress p' t := by
  unfold pyProgress
  apply min_le_min (le_refl 100)
  apply truncD_mono
  apply roundD_mono (mul_nonneg (roundD_nonneg _) (by norm_num))
  apply mul_le_mul_of_nonneg_right _ (by norm_num : (0:ℚ) ≤ 100)
  apply roundD_mono (by positivity)
  gcongr

theorem truncD_natCast (n : Nat) : truncD ((n : Nat) : ℚ) = n := by
  unfold truncD
  rw [Int.floor_natCast]
  simp

theorem pyScaled_int (m mult : Nat) (h2 : m * mult < 2 ^ 53) :
    pyScaled m 0 mult = m * mult := by
  unfold pyScaled
  simp only [pow_zero, Nat.cast_one, div_one]
  rcases Nat.eq_zero_or_pos m with hm0 | hm0
  · subst hm0
    rw [Nat.cast_zero, roundD_nonpos 0 (le_refl 0), zero_mul,
        roundD_nonpos 0 (le_refl 0)]
    simp [truncD]
  · rcases Nat.eq_zero_or_pos mult with hmu0 | hmu0
    · subst hmu0
      rw [Nat.cast_zero, mul_zero, roundD_nonpos 0 (le_refl 0)]
      simp [truncD]
    · have hmlt : m < 2 ^ 53 := lt_of_le_of_lt (Nat.le_mul_of_pos_right m hmu0) h2
      rw [roundD_int m hm0 hmlt]
      have hprod : ((m : ℚ) * (mult : ℚ)) = ((m * mult : Nat) : ℚ) := by push_cast; ring
      rw [hprod, roundD_int (m * mult) (Nat.mul_pos hm0 hmu0) h2]
      exact truncD_natCast _

/-- A decimal digit is unchanged by `Char.toUpper`. -/
theorem toUpper_eq_of_isDigit (c : Char) (h : c.isDigit = true) : c.toUpper = c := by
  simp only [Char.isDigit, Bool.and_eq_true, decide_eq_true_eq] at h
  have h2 : c.val.toNat ≤ 57 := UInt32.toNat_le_of_le (by norm_num [UInt32.size]) h.2
  simp only [Char.toUpper, Char.toNat]
  rw [if_neg]
  rintro ⟨h1, _⟩
  omega

/-- Every character of a successfully parsed decimal numeral is a digit
or the dot. -/
theorem parseDecimal_chars (cs : List Char) (x : Nat × Nat)
    (h : parseDecimal cs = some x) : ∀ c ∈ cs, c.isDigit = true ∨ c = '.' := by
  have hsplit : cs.takeWhile Char.isDigit ++ cs.dropWhile Char.isDigit = cs :=
    List.takeWhile_append_dropWhile Char.isDigit cs
  unfold parseDecimal at h
  intro c hc
  rw [← hsplit] at hc
  rcases List.mem_append.mp hc with hip | hrest
  · exact Or.inl (List.mem_takeWhile_imp hip)
  · rcases hdw : cs.dropWhile Char.isDigit with _ | ⟨d, fp⟩
    · rw [hdw] at hrest; simp at hrest
    · rw [hdw] at hrest h
      simp only at h
      split at h
      · rename_i hcond
        rcases List.mem_cons.mp hrest with hhd | htl
        · exact Or.inr (hhd.trans hcond.1)
        · refine Or.inl ?_
          have hall := hcond.2.1
          rw [List.all_eq_true] at hall
          exact hall c htl
      · exact absurd h (by simp)

/-- Mapping `Char.toUpper` over a digits-and-dot character list is the
identity. -/
theorem map_toUpper_of_decimal (cs : List Char)
    (h : ∀ c ∈ cs, c.isDigit = true ∨ c = '.') : cs.map Char.toUpper = cs := by
  induction cs with
  | nil => rfl
  | cons c rest ih =>
    have hc : c.toUpper = c := by
      rcases h c (by simp) with hd | hdot
      · exact toUpper_eq_of_isDigit c hd
      · rw [hdot]; decide
    simp only [List.map_cons, hc, List.cons.injEq, true_and]
    exact ih fun x hx => h x (by simp [hx])

/-- A `K` suffix after a decimal numeral scales the `float`-parsed
prefix by 1000 in double arithmetic with `int` truncation; an `M`
suffix by 1000000. -/
theorem parseBitrateCore_suffix (cs : List Char) (m k : Nat)
    (h : parseDecimal cs = some (m, k)) :
    parseBitrateCore (cs ++ ['K']) = some (pyScaled m k 1000) ∧
    parseBitrateCore (cs ++ ['M']) = some (pyScaled m k 1000000) := by
  have hfix : cs.map Char.toUpper = cs :=
    map_toUpper_of_decimal cs (parseDecimal_chars cs (m, k) h)
  constructor <;>
    simp [parseBitrateCore, List.map_append, hfix, List.getLast?_concat,
      List.dropLast_concat, h]

/-- Claim C8 (corrected): bitrate parsing maps "500K" to 500000, "1M"
to 1000000, "2.5M" to 2500000 and "128000" to 128000; and for an
integer numeric prefix of value `m` whose scaled value stays below
`2 ^ 53` (so the doubles are exact) a `K` suffix yields exactly
`m * 1000` and an `M` suffix exactly `m * 1000000`.  The spec's
general law over fractional prefixes fails: the double arithmetic of
`int(float(value[:-1]) * 1000)` can land one below the exact product,
see `bitrate_rounding_counterexample`. -/
theorem parse_bitrate_spec :
    parse_bitrate "500K" = some 500000 ∧
    parse_bitrate "1M" = some 1000000 ∧
    parse_bitrate "2.5M" = some 2500000 ∧
    parse_bitrate "128000" = some 128000 ∧
    ∀ cs m, parseDecimal cs = some (m, 0) → m * 1000000 < 2 ^ 53 →
      parseBitrateCore (cs ++ ['K']) = some (m * 1000) ∧
      parseBitrateCore (cs ++ ['M']) = some (m * 1000000) := by
  refine ⟨by with_unfolding_all rfl, by with_unfolding_all rfl,
    by with_unfolding_all rfl, by with_unfolding_all rfl, ?_⟩
  intro cs m h hlt
  obtain ⟨hK, hM⟩ := parseBitrateCore_suffix cs m 0 h
  have hltK : m * 1000 < 2 ^ 53 :=
    lt_of_le_of_lt (Nat.mul_le_mul_left m (by norm_num)) hlt
  exact ⟨by rw [hK, pyScaled_int m 1000 hltK],
    by rw [hM, pyScaled_int m 1000000 hlt]⟩

/-- Witness for C8: the exact integer-prefix law applied to "500K". -/
theorem parse_bitrate_spec_witness :
    parseBitrateCore ("500".toList ++ ['K']) = some (500 * 1000) :=
  (parse_bitrate_spec.2.2.2.2 "500".toList 500 (by decide) (by norm_num)).1

/-- Counterexample to C8 as stated: on "1.005K" the program computes
`int(float("1.005") * 1000)`; the nearest double to 1.005 is slightly
below it, the rounded product is just under 1005, and `int` truncates
to 1004, one below the exact `1005 * 1000 / 10 ^ 3 = 1005`. -/
theorem bitrate_rounding_counterexample :
    parse_bitrate "1.005K" = some 1004 ∧ 1005 * 1000 / 10 ^ 3 = 1005 :=
  ⟨by with_unfolding_all rfl, by norm_num⟩

/-- Claim C9: the resolution table maps "720p" to (1280,720), "1080p"
to (1920,1080) and "480p" to (854,480); and for the "original" setting
the configured output dimensions equal the input stream's dimensions
for every input stream. -/
theorem resolution_mapping_spec :
    get_resolution_dimensions "720p" = (1280, 720) ∧
    get_resolution_dimensions "1080p" = (1920, 1080) ∧
    get_resolution_dimensions "480p" = (854, 480) ∧
    ∀ (st : CompressionSettings) (input_stream : VideoStreamInfo),
      st.resolution = "original" →
      output_dims st input_stream = (input_stream.width, input_stream.height) := by
  refine ⟨by decide, by decide, by decide, ?_⟩
  intro st input_stream h
  simp [output_dims, h]

/-- Witness for C9: default settings request "original" and a 3840x2160
input keeps its dimensions. -/
theorem resolution_mapping_spec_witness :
    output_dims {} ⟨0, none, none, none, 3840, 2160⟩ = (3840, 2160) :=
  resolution_mapping_spec.2.2.2 {} ⟨0, none, none, none, 3840, 2160⟩ rfl

/-- Claim C7: changing only the `gpu_acceleration` settings field never
changes the encoder attempt plan the worker iterates over. -/
theorem attemptPlan_ignores_gpu_preference (available : String → Bool)
    (s : CompressionSettings) (g : String) :
    attemptPlan available { s with gpu_acceleration := g } = attemptPlan available s :=
  rfl

/-- Claim C6: encoder resolution is total: under any availability oracle
with no priority-table entry available, the hardcoded software fallback
for the family is returned (and that fallback is a software encoder);
the fallback list is always non-empty, hence the attempt plan always
has at least one candidate; and each known family's priority list has a
software encoder first followed only by hardware variants. -/
theorem encoder_resolution_total (codec : String) (available : String → Bool)
    (hnone : ∀ e ∈ encoder_priority codec, available e = false) :
    get_optimal_encoder available codec = encoder_fallback_default codec ∧
    isSoftwareName (encoder_fallback_default codec) = true ∧
    get_fallback_encoders codec ≠ [] ∧
    get_optimal_encoder available codec :: get_fallback_encoders codec ≠ [] ∧
    ∀ c ∈ (["h264", "h265", "vp9", "av1"] : List String),
      ∃ s t, encoder_priority c = s :: t ∧ isSoftwareName s = true ∧
        ∀ e ∈ t, isSoftwareName e = false := by
  refine ⟨?_, ?_, ?_, by simp, ?_⟩
  · have hfind : (encoder_priority codec).find? available = none :=
      List.find?_eq_none.mpr fun x hx => by simp [hnone x hx]
    simp [get_optimal_encoder, hfind]
  · unfold encoder_fallback_default
    repeat' split
    all_goals decide
  · unfold get_fallback_encoders
    repeat' split
    all_goals simp
  · intro c hc
    fin_cases hc <;> exact ⟨_, _, rfl, by decide, by decide⟩

/-- Witness for C6: the h264 family with nothing available resolves to
the hardcoded libx264 fallback. -/
theorem encoder_resolution_total_witness :
    get_optimal_encoder (fun _ => false) "h264" = encoder_fallback_default "h264" :=
  (encoder_resolution_total "h264" (fun _ => false) (fun _ _ => rfl)).1

/-- Both explicit `close()` calls have run on the success/cancel path. -/
theorem closeAndFinish_closed (s : List String) (lo : VideoLoopOut) (total : Nat)
    (mm mf : List Packet) (c : Bool) :
    (closeAndFinish s lo total mm mf c).inputClosed = true ∧
    (closeAndFinish s lo total mm mf c).outputClosed = true := by
  unfold closeAndFinish; split <;> exact ⟨rfl, rfl⟩

/-- The success/cancel path never ends in the failure exit. -/
theorem closeAndFinish_not_failure (s : List String) (lo : VideoLoopOut) (total : Nat)
    (mm mf : List Packet) (c : Bool) :
    isFailureExit (closeAndFinish s lo total mm mf c).exitKind = false := by
  unfold closeAndFinish; split <;> rfl

/-- The terminal event of the success/cancel path matches its exit kind. -/
theorem closeAndFinish_terminal (s : List String) (lo : VideoLoopOut) (total : Nat)
    (mm mf : List Packet) (c : Bool) :
    (closeAndFinish s lo total mm mf c).terminal =
      exitTerminal (closeAndFinish s lo total mm mf c).exitKind := by
  unfold closeAndFinish; split <;> rfl

/-- Progress events of the success/cancel path: the loop's values, with
the forced 100 appended exactly on success. -/
theorem closeAndFinish_progress (s : List String) (lo : VideoLoopOut) (total : Nat)
    (mm mf : List Packet) (c : Bool) :
    (closeAndFinish s lo total mm mf c).progressEvents =
      lo.progresses ++ (if c then [] else [100]) ∧
    (closeAndFinish s lo total mm mf c).processedFrames = lo.processed ∧
    (closeAndFinish s lo total mm mf c).totalFrames = total ∧
    (closeAndFinish s lo total mm mf c).sentFrames = lo.sent := by
  unfold closeAndFinish; split <;> simp_all

/-- The success/cancel path's terminal flag is `true` only on success. -/
theorem closeAndFinish_terminal_true (s : List String) (lo : VideoLoopOut) (total : Nat)
    (mm mf : List Packet) (c : Bool) :
    (closeAndFinish s lo total mm mf c).terminal.1 = !c := by
  unfold closeAndFinish; split <;> simp_all


/-- Closes and exit kind agree on the loop tail: containers closed
exactly when the exit is not a failure. -/
theorem runFromLoop_closed (env : Env) (inp : InputFile) (st : CompressionSettings)
    (flag : Nat → Bool) (total : Nat) (acfg : Option AudioOutConfig) (pre : List String) :
    (runFromLoop env inp st flag total acfg pre).inputClosed
        = !isFailureExit (runFromLoop env inp st flag total acfg pre).exitKind ∧
    (runFromLoop env inp st flag total acfg pre).outputClosed
        = !isFailureExit (runFromLoop env inp st flag total acfg pre).exitKind := by
  unfold runFromLoop
  repeat' split
  all_goals
    first
    | exact ⟨rfl, rfl⟩
    | simp [closeAndFinish_closed, closeAndFinish_not_failure]

/-- Claim C1 (amended): the explicit closes run exactly on the
non-failure exits.  On success and cancellation both containers are
closed before the terminal event; on every failure exit, wherever it
was raised, the `except` branch emits the terminal event without the
`try` body's `close()` calls having run (the `finally` block only
garbage-collects). -/
theorem run_closed_iff_not_failure (env : Env) (inp : InputFile)
    (st : CompressionSettings) (flag : Nat → Bool) :
    (run env inp st flag).inputClosed
        = !isFailureExit (run env inp st flag).exitKind ∧
    (run env inp st flag).outputClosed
        = !isFailureExit (run env inp st flag).exitKind := by
  unfold run
  repeat' split
  all_goals
    first
    | exact ⟨rfl, rfl⟩
    | exact runFromLoop_closed _ _ _ _ _ _ _

/-- Counterexample to claim C1 as stated: a run on an existing, valid
input in which every encoder candidate fails negotiation ends in the
failed terminal outcome with both containers opened but neither one
closed, because the `close()` calls at `main.py:274-276` sit inside the
`try` body and the `finally` block only garbage-collects. -/
theorem run_cleanup_counterexample :
    (run envNoEncoder inpSmall {} flagNever).inputOpened = true ∧
    (run envNoEncoder inpSmall {} flagNever).outputOpened = true ∧
    (run envNoEncoder inpSmall {} flagNever).inputClosed = false ∧
    (run envNoEncoder inpSmall {} flagNever).outputClosed = false ∧
    (run envNoEncoder inpSmall {} flagNever).exitKind
      = .failure "No working video encoder found" :=
  ⟨rfl, rfl, rfl, rfl, rfl⟩

/-- The loop tail's terminal event is determined by its exit kind. -/
theorem runFromLoop_terminal (env : Env) (inp : InputFile) (st : CompressionSettings)
    (flag : Nat → Bool) (total : Nat) (acfg : Option AudioOutConfig) (pre : List String) :
    (runFromLoop env inp st flag total acfg pre).terminal
      = exitTerminal (runFromLoop env inp st flag total acfg pre).exitKind := by
  unfold runFromLoop
  repeat' split
  all_goals
    first
    | rfl
    | exact closeAndFinish_terminal _ _ _ _ _ _

/-- Every run's single terminal event is determined by its exit kind:
`(true, success message)`, `(false, cancellation message)`, or
`(false, "Compression failed: " ++ cause)`. -/
theorem run_terminal_eq (env : Env) (inp : InputFile) (st : CompressionSettings)
    (flag : Nat → Bool) :
    (run env inp st flag).terminal = exitTerminal (run env inp st flag).exitKind := by
  unfold run
  repeat' split
  all_goals
    first
    | rfl
    | exact runFromLoop_terminal _ _ _ _ _ _ _

/-- A failure message, always prefixed `Compression failed: `, is never
the fixed cancellation message. -/
theorem failMessage_ne_cancelMessage (m : String) :
    "Compression failed: " ++ m ≠ "Compression cancelled by user" := by
  intro h
  have h2 := congrArg (fun s => s.data.take 13) h
  simp only [String.data_append] at h2
  rw [List.take_append_of_le_length (by decide)] at h2
  exact absurd h2 (by decide)

/-- Claim C2: a run stopped by the observed cancellation flag emits the
single terminal event `(false, "Compression cancelled by user")` — it
never raises, and its message differs from the message of every failed
run (all failure messages carry the `Compression failed: ` prefix), so
within the `(success, message)` terminal event a cancelled run is
distinguishable from a failed run. -/
theorem cancelled_outcome_distinct (env : Env) (inp : InputFile)
    (st : CompressionSettings) (flag : Nat → Bool) :
    ((run env inp st flag).exitKind = .cancelledExit →
      (run env inp st flag).terminal = (false, "Compression cancelled by user")) ∧
    (∀ m, (run env inp st flag).exitKind = .failure m →
      (run env inp st flag).terminal = (false, "Compression failed: " ++ m)) ∧
    (∀ m, "Compression failed: " ++ m ≠ "Compression cancelled by user") := by
  refine ⟨?_, ?_, failMessage_ne_cancelMessage⟩
  · intro h
    rw [run_terminal_eq, h]
    rfl
  · intro m h
    rw [run_terminal_eq, h]
    rfl

/-- Witness for C2: a concrete run cancelled before the first frame
emits the cancelled terminal event. -/
theorem cancelled_outcome_distinct_witness :
    (run envAllOk inpSmall {} flagAlways).terminal
      = (false, "Compression cancelled by user") :=
  (cancelled_outcome_distinct envAllOk inpSmall {} flagAlways).1 rfl

/-- The video loop emits exactly the per-frame progress values
`min(100, int(((p+j)/total)*100))` for the frames it processed. -/
theorem videoLoop_progress_shape (env : Env) (st : CompressionSettings)
    (total : Nat) (flag : Nat → Bool) :
    ∀ (frames : List Frame) (p fi : Nat),
      ∃ n, (videoLoop env st total flag frames p fi).processed = p + n ∧
        (videoLoop env st total flag frames p fi).progresses = progListFrom total p n := by
  intro frames
  induction frames with
  | nil => exact fun p fi => ⟨0, rfl, rfl⟩
  | cons f rest ih =>
    intro p fi
    by_cases hf : flag fi
    · exact ⟨0, by simp [videoLoop, hf, progListFrom]⟩
    · by_cases he : env.encodeFails p
      · exact ⟨0, by simp [videoLoop, hf, he, progListFrom]⟩
      · obtain ⟨n, h1, h2⟩ := ih (p + 1) (fi + 1)
        refine ⟨n + 1, ?_, ?_⟩
        · simp only [videoLoop, hf, he, if_false, Bool.false_eq_true, if_neg]
          simp [h1]
          omega
        · simp only [videoLoop, hf, he, if_false, Bool.false_eq_true, if_neg]
          simp [h2, progListFrom]

/-- Every emitted per-frame progress value is at most 100. -/
theorem progListFrom_le_100 (total : Nat) :
    ∀ n p, ∀ q ∈ progListFrom total p n, q ≤ 100 := by
  intro n
  induction n with
  | zero => intro p q hq; simp [progListFrom] at hq
  | succ n ih =>
    intro p q hq
    rcases List.mem_cons.mp hq with h | h
    · rw [h]; exact pyProgress_le_100 _ _
    · exact ih (p + 1) q h

/-- The per-frame progress values are non-decreasing. -/
theorem progListFrom_chain (total : Nat) :
    ∀ n p, List.Chain' (· ≤ ·) (progListFrom total p n) := by
  intro n
  induction n with
  | zero => intro p; simp [progListFrom]
  | succ n ih =>
    intro p
    cases n with
    | zero => simp [progListFrom]
    | succ n' =>
      refine List.chain'_cons.mpr ⟨?_, ih (p + 1)⟩
      exact pyProgress_mono total (by omega)

/-- Index `i` of the progress list starting at 0 holds the value for
the `(i+1)`-st processed frame. -/
theorem progListFrom_get (total : Nat) :
    ∀ n p i, i < n →
      (progListFrom total p n).get? i = some (pyProgress (p + i + 1) total) := by
  intro n
  induction n with
  | zero => intro p i hi; omega
  | succ n ih =>
    intro p i hi
    cases i with
    | zero => simp [progListFrom]
    | succ i' =>
      have := ih (p + 1) i' (by omega)
      simpa [progListFrom, Nat.add_assoc, Nat.add_comm, Nat.add_left_comm] using this

/-- The progress list for `n` frames has length `n`. -/
theorem progListFrom_length (total : Nat) :
    ∀ n p, (progListFrom total p n).length = n := by
  intro n
  induction n with
  | zero => intro p; rfl
  | succ n ih => intro p; simp [progListFrom, ih]

/-- Appending the forced final 100 preserves monotonicity when all
previous values are at most 100. -/
theorem chain_append_100 (l : List Nat) (hc : List.Chain' (· ≤ ·) l)
    (hb : ∀ q ∈ l, q ≤ 100) : List.Chain' (· ≤ ·) (l ++ [100]) := by
  rw [List.chain'_append]
  refine ⟨hc, List.chain'_singleton _, ?_⟩
  intro x hx y hy
  simp only [List.head?_cons, Option.mem_def, Option.some.injEq] at hy
  subst hy
  have hxl : x ∈ l := by
    cases l with
    | nil => simp at hx
    | cons a as => exact List.mem_of_mem_getLast? hx
  exact hb x hxl

/-- Progress shape of the success/cancel path, given the loop's shape. -/
theorem closeAndFinish_shape (s : List String) (lo : VideoLoopOut) (total : Nat)
    (mm mf : List Packet) (c : Bool) (n : Nat)
    (hp : lo.processed = n) (hpr : lo.progresses = progListFrom total 0 n) :
    ∃ t, (closeAndFinish s lo total mm mf c).progressEvents
        = progListFrom total 0 n ++ t ∧
      (closeAndFinish s lo total mm mf c).processedFrames = n ∧
      (closeAndFinish s lo total mm mf c).totalFrames = total ∧
      (t = [] ∨ t = [100]) ∧
      ((closeAndFinish s lo total mm mf c).terminal.1 = true → t = [100]) := by
  refine ⟨if c then [] else [100], ?_⟩
  unfold closeAndFinish
  cases c <;> simp [hp, hpr]

/-- Progress shape of the loop tail: the per-frame values for the
processed frames, followed by the forced 100 exactly on success. -/
theorem runFromLoop_progress_shape (env : Env) (inp : InputFile)
    (st : CompressionSettings) (flag : Nat → Bool) (total : Nat)
    (acfg : Option AudioOutConfig) (pre : List String) :
    ∃ n t, (runFromLoop env inp st flag total acfg pre).progressEvents
        = progListFrom total 0 n ++ t ∧
      (runFromLoop env inp st flag total acfg pre).processedFrames = n ∧
      (runFromLoop env inp st flag total acfg pre).totalFrames = total ∧
      (t = [] ∨ t = [100]) ∧
      ((runFromLoop env inp st flag total acfg pre).terminal.1 = true → t = [100]) := by
  obtain ⟨n, hp, hpr⟩ := videoLoop_progress_shape env st total flag inp.videoFrames 0 0
  rw [Nat.zero_add] at hp
  unfold runFromLoop
  repeat' split
  all_goals
    first
    | exact ⟨n, [], by simp [failResult, hpr], by simp [failResult, hp],
        rfl, Or.inl rfl, by simp [failResult]⟩
    | (obtain ⟨t, h1, h2, h3, h4, h5⟩ := closeAndFinish_shape _ _ total _ _ _ n hp hpr
       exact ⟨n, t, h1, h2, h3, h4, h5⟩)

/-- Progress shape of a whole run. -/
theorem run_progress_shape (env : Env) (inp : InputFile) (st : CompressionSettings)
    (flag : Nat → Bool) :
    ∃ n t, (run env inp st flag).progressEvents
        = progListFrom (run env inp st flag).totalFrames 0 n ++ t ∧
      (run env inp st flag).processedFrames = n ∧
      (t = [] ∨ t = [100]) ∧
      ((run env inp st flag).terminal.1 = true → t = [100]) := by
  unfold run
  repeat' split
  all_goals
    first
    | exact ⟨0, [], rfl, rfl, Or.inl rfl, by simp [failResult]⟩
    | (obtain ⟨n, t, h1, h2, h3, h4, h5⟩ := runFromLoop_progress_shape
         env inp st flag _ _ _
       exact ⟨n, t, by rw [h3]; exact h1, h2, h4, h5⟩)

/-- Claim C4 (corrected): in every run the emitted progress sequence
is non-decreasing with all values in [0,100]; the value emitted after
the `(i+1)`-st frame is `min(100, int(((i+1)/total)*100))` computed in
CPython double arithmetic (`pyProgress`), which can land one below the
exact integer formula, see `progress_formula_counterexample`; and a
successful run's final emitted value is exactly 100. -/
theorem monotone_progress (env : Env) (inp : InputFile)
    (st : CompressionSettings) (flag : Nat → Bool) :
    List.Chain' (· ≤ ·) (run env inp st flag).progressEvents ∧
    (∀ q ∈ (run env inp st flag).progressEvents, q ≤ 100) ∧
    (∀ i, i < (run env inp st flag).processedFrames →
      (run env inp st flag).progressEvents.get? i
        = some (pyProgress (i + 1) (run env inp st flag).totalFrames)) ∧
    ((run env inp st flag).terminal.1 = true →
      (run env inp st flag).progressEvents.getLast? = some 100) := by
  obtain ⟨n, t, h1, h2, h3, h4⟩ := run_progress_shape env inp st flag
  refine ⟨?_, ?_, ?_, ?_⟩
  · rw [h1]
    rcases h3 with ht | ht
    · subst ht
      simpa using progListFrom_chain _ n 0
    · subst ht
      exact chain_append_100 _ (progListFrom_chain _ n 0) (progListFrom_le_100 _ n 0)
  · intro q hq
    rw [h1] at hq
    rcases List.mem_append.mp hq with hL | hR
    · exact progListFrom_le_100 _ n 0 q hL
    · rcases h3 with ht | ht <;> subst ht <;> simp at hR
      omega
  · intro i hi
    rw [h2] at hi
    rw [h1, List.get?_append (by rw [progListFrom_length]; exact hi)]
    have := progListFrom_get (run env inp st flag).totalFrames n 0 i hi
    simpa using this
  · intro hterm
    have ht := h4 hterm
    subst ht
    rw [h1]
    exact List.getLast?_concat _

/-- Witness for C4: the two-frame all-success run emits the
double-computed value after its first frame and ends at exactly 100. -/
theorem monotone_progress_witness :
    (run envAllOk inpSmall {} flagNever).progressEvents.get? 0
      = some (pyProgress (0 + 1)
          (run envAllOk inpSmall {} flagNever).totalFrames) ∧
    (run envAllOk inpSmall {} flagNever).progressEvents.getLast? = some 100 :=
  ⟨(monotone_progress envAllOk inpSmall {} flagNever).2.2.1 0 (by decide),
   (monotone_progress envAllOk inpSmall {} flagNever).2.2.2 rfl⟩

/-- Counterexample to C4 as stated: with 50 estimated frames, after
the 29th frame CPython computes `int((29/50)*100)`: the double
quotient rounds below 0.58, the product with 100 rounds to
57.99999999999999, and `int` truncates to 57, one below the exact
`min(100, 29 * 100 / 50) = 58` of the spec's formula. -/
theorem progress_formula_counterexample :
    (run envAllOk inpProg {} flagNever).progressEvents.get? 28 = some 57 ∧
    min 100 ((28 + 1) * 100
      / (run envAllOk inpProg {} flagNever).totalFrames) = 58 :=
  ⟨by with_unfolding_all rfl, by with_unfolding_all rfl⟩

/-- If every candidate fails negotiation, the fallback loop configures
no stream and emits a failure status for every candidate. -/
theorem tryEncoders_all_fail (env : Env) (st : CompressionSettings)
    (vs : VideoStreamInfo) :
    ∀ l : List String,
      (∀ e ∈ l, ∃ m, setup_video_encoder env st vs e = .error m) →
      (tryEncoders env st vs l).2 = none ∧
      ∀ e ∈ l, ∃ m, ("❌ Encoder " ++ e ++ " failed: " ++ m)
          ∈ (tryEncoders env st vs l).1 := by
  intro l
  induction l with
  | nil => intro _; exact ⟨rfl, by simp⟩
  | cons e rest ih =>
    intro h
    obtain ⟨m, hm⟩ := h e (by simp)
    obtain ⟨ih1, ih2⟩ := ih fun x hx => h x (by simp [hx])
    refine ⟨by simp [tryEncoders, hm, ih1], ?_⟩
    intro x hx
    rcases List.mem_cons.mp hx with hhd | htl
    · subst hhd
      exact ⟨m, by simp [tryEncoders, hm]⟩
    · obtain ⟨m', hm'⟩ := ih2 x htl
      exact ⟨m', by simp [tryEncoders, hm, hm']⟩

/-- Claim C5: when every candidate in the attempt plan (primary, then
fallbacks) fails negotiation, each individual failure is reported as a
status event, no output video stream is left configured, and the run
fails with the no-working-encoder message. -/
theorem encoder_exhaustion_fails (env : Env) (inp : InputFile)
    (st : CompressionSettings) (flag : Nat → Bool)
    (v : VideoStreamInfo) (vrest : List VideoStreamInfo)
    (hex : inp.inputExists = true)
    (hvs : inp.videoStreams = v :: vrest)
    (hout : env.openOutputOk = true)
    (hall : ∀ e ∈ attemptPlan env.availableEncoders st,
      ∃ m, setup_video_encoder env st v e = .error m) :
    (run env inp st flag).exitKind = .failure "No working video encoder found" ∧
    (run env inp st flag).terminal
      = (false, "Compression failed: No working video encoder found") ∧
    (run env inp st flag).videoStreamConfigured = false ∧
    ∀ e ∈ attemptPlan env.availableEncoders st,
      ∃ m, ("❌ Encoder " ++ e ++ " failed: " ++ m)
          ∈ (run env inp st flag).statusEvents := by
  obtain ⟨hnone, hmem⟩ := tryEncoders_all_fail env st v _ hall
  have hrun : run env inp st flag
      = failResult
          (preStatuses env st v ++
            (tryEncoders env st v (attemptPlan env.availableEncoders st)).1)
          [] true true 0 (totalFramesOf v) false [] []
          "No working video encoder found" := by
    unfold run
    rw [hvs]
    simp only [hex, hout, if_true, hnone]
  rw [hrun]
  refine ⟨rfl, rfl, rfl, ?_⟩
  intro e he
  obtain ⟨m, hm⟩ := hmem e he
  exact ⟨m, by simp [failResult, hm]⟩

/-- Witness for C5: with `add_stream` failing for every encoder name,
the default-settings run fails with the no-encoder message. -/
theorem encoder_exhaustion_fails_witness :
    (run envNoEncoder inpSmall {} flagNever).terminal
      = (false, "Compression failed: No working video encoder found") :=
  (encoder_exhaustion_fails envNoEncoder inpSmall {} flagNever vsSmall []
    rfl rfl rfl
    (by
      intro e he
      fin_cases he <;> exact ⟨_, rfl⟩)).2.1

/-- The frames handed to the encoder on the success/cancel path are the
loop's. -/
theorem closeAndFinish_sent (s : List String) (lo : VideoLoopOut) (total : Nat)
    (mm mf : List Packet) (c : Bool) :
    (closeAndFinish s lo total mm mf c).sentFrames = lo.sent := by
  unfold closeAndFinish; split <;> rfl

/-- With an unrecognized non-original resolution setting, every frame
handed to the encoder by the video loop was resized to 1920x1080. -/
theorem videoLoop_sent_resized (env : Env) (st : CompressionSettings)
    (total : Nat) (flag : Nat → Bool)
    (h1 : st.resolution ≠ "1080p") (h2 : st.resolution ≠ "720p")
    (h3 : st.resolution ≠ "480p") (h4 : st.resolution ≠ "original") :
    ∀ (frames : List Frame) (p fi : Nat),
      ∀ f ∈ (videoLoop env st total flag frames p fi).sent, f = ⟨1920, 1080⟩ := by
  have hres : ∀ g : Frame, resize_frame st g = ⟨1920, 1080⟩ := by
    intro g
    simp [resize_frame, get_resolution_dimensions, h1, h2, h3]
  have hbne : (st.resolution != "original") = true := by
    simp [bne_iff_ne]
    exact h4
  intro frames
  induction frames with
  | nil => intro p fi f hf; simp [videoLoop] at hf
  | cons g rest ih =>
    intro p fi f hf
    by_cases hfl : flag fi
    · simp [videoLoop, hfl] at hf
    · by_cases he : env.encodeFails p
      · simp [videoLoop, hfl, he, hbne, hres] at hf
        rw [hf]
      · simp only [videoLoop, hfl, Bool.false_eq_true, if_false, he, hbne, if_true] at hf
        simp only [List.mem_cons] at hf
        rcases hf with hf | hf
        · rw [hf]; exact hres g
        · exact ih (p + 1) (fi + 1) f hf

/-- Claim C10: any resolution string outside the fixed table silently
resolves to (1920,1080) instead of raising, and a run with such a
setting (other than "original") hands only 1920x1080 frames to the
encoder rather than failing. -/
theorem unknown_resolution_fallback (r : String)
    (h1 : r ≠ "1080p") (h2 : r ≠ "720p") (h3 : r ≠ "480p") :
    get_resolution_dimensions r = (1920, 1080) ∧
    ∀ st : CompressionSettings, st.resolution = r → r ≠ "original" →
      (∀ g : Frame, resize_frame st g = ⟨1920, 1080⟩) ∧
      ∀ (env : Env) (inp : InputFile) (flag : Nat → Bool),
        ∀ f ∈ (run env inp st flag).sentFrames, f = ⟨1920, 1080⟩ := by
  constructor
  · simp [get_resolution_dimensions, h1, h2, h3]
  · intro st hst h4
    rw [← hst] at h1 h2 h3 h4
    constructor
    · intro g
      simp [resize_frame, get_resolution_dimensions, h1, h2, h3]
    · intro env inp flag
      unfold run runFromLoop
      repeat' split
      all_goals intro f hf
      all_goals
        first
        | (simp [failResult] at hf
           done)
        | (simp only [failResult] at hf
           exact videoLoop_sent_resized env st _ flag h1 h2 h3 h4 _ _ _ f hf)
        | (rw [closeAndFinish_sent] at hf
           exact videoLoop_sent_resized env st _ flag h1 h2 h3 h4 _ _ _ f hf)

/-- Witness for C10: the unrecognized resolution "4k" maps to
(1920,1080) and a concrete run with it sends only 1920x1080 frames. -/
theorem unknown_resolution_fallback_witness :
    get_resolution_dimensions "4k" = (1920, 1080) ∧
    (⟨1920, 1080⟩ : Frame) = ⟨1920, 1080⟩ :=
  ⟨(unknown_resolution_fallback "4k" (by decide) (by decide) (by decide)).1,
   ((unknown_resolution_fallback "4k" (by decide) (by decide) (by decide)).2
      { resolution := "4k" } rfl (by decide)).2 envAllOk inpSmall flagNever
      ⟨1920, 1080⟩ (by decide)⟩

/-- If the flag trace is false before read `k` and true at read `k`,
and no encode error occurs before then, the video loop (whose counter
and read index move in lockstep) processes exactly the frames up to
`k`, performs one flag read per completed iteration plus the observing
read, muxes exactly their packets, and stops without error. -/
theorem videoLoop_cancel (env : Env) (st : CompressionSettings) (total : Nat)
    (flag : Nat → Bool) (k : Nat)
    (hks : ∀ i, i < k → flag i = false) (hkt : flag k = true)
    (hnf : ∀ i, i < k → env.encodeFails i = false) :
    ∀ (frames : List Frame) (p : Nat), p ≤ k → k < p + frames.length →
      (videoLoop env st total flag frames p p).processed = k ∧
      (videoLoop env st total flag frames p p).flagIdx = k + 1 ∧
      (videoLoop env st total flag frames p p).error = none ∧
      (videoLoop env st total flag frames p p).muxed = muxOfRange env p (k - p) := by
  intro frames
  induction frames with
  | nil =>
    intro p h1 h2
    simp at h2
    omega
  | cons g rest ih =>
    intro p h1 h2
    rcases Nat.eq_or_lt_of_le h1 with he | hlt
    · subst he
      simp [videoLoop, hkt, muxOfRange, Nat.sub_self]
    · have hf : flag p = false := hks p hlt
      have hef : env.encodeFails p = false := hnf p hlt
      have ih' := ih (p + 1) (by omega) (by simp at h2 ⊢; omega)
      have hkp : k - p = (k - (p + 1)) + 1 := by omega
      simp only [videoLoop, hf, Bool.false_eq_true, if_false, hef]
      refine ⟨ih'.1, ih'.2.1, ih'.2.2.1, ?_⟩
      simp only [ih'.2.2.2, hkp, muxOfRange]

/-- The audio loop under an already-set flag muxes nothing and performs
at most one flag read. -/
theorem audioLoop_cancelled (env : Env) (flag : Nat → Bool)
    (frames : List Frame) (n fi : Nat) (hf : flag fi = true) :
    (audioLoop env flag frames n fi).1 = [] ∧
    ((audioLoop env flag frames n fi).2 = fi ∨
      (audioLoop env flag frames n fi).2 = fi + 1) := by
  cases frames <;> simp [audioLoop, hf]

/-- Claim C3: with a monotone (write-once) cancellation flag first
observed true at read `k` while frames remain (`k <` number of input
frames), a run that reached its frame loop processes exactly the `k`
frames preceding the observation (one flag check per iteration, plus
the observing check), muxes only their packets, skips the flush phase
entirely — no flushed video or audio packets are muxed — and ends in
the cancelled outcome. -/
theorem cancellation_stops_encoding (env : Env) (inp : InputFile)
    (st : CompressionSettings) (flag : Nat → Bool)
    (v : VideoStreamInfo) (vrest : List VideoStreamInfo)
    (cfg : VideoOutConfig) (acfg : Option AudioOutConfig) (k : Nat)
    (hmono : ∀ i j, i ≤ j → flag i = true → flag j = true)
    (hex : inp.inputExists = true)
    (hvs : inp.videoStreams = v :: vrest)
    (hout : env.openOutputOk = true)
    (hneg : (tryEncoders env st v (attemptPlan env.availableEncoders st)).2 = some cfg)
    (haud : audioSetupResult env st inp = .ok acfg)
    (hks : ∀ i, i < k → flag i = false)
    (hkt : flag k = true)
    (hkN : k < inp.videoFrames.length)
    (hnf : ∀ i, i < k → env.encodeFails i = false) :
    (run env inp st flag).exitKind = .cancelledExit ∧
    (run env inp st flag).terminal = (false, "Compression cancelled by user") ∧
    (run env inp st flag).processedFrames = k ∧
    (run env inp st flag).muxedFlush = [] ∧
    (run env inp st flag).muxedMain = muxOfRange env 0 k ∧
    (videoLoop env st (totalFramesOf v) flag inp.videoFrames 0 0).flagIdx = k + 1 := by
  obtain ⟨hlp, hlf, hle, hlm⟩ :=
    videoLoop_cancel env st (totalFramesOf v) flag k hks hkt hnf
      inp.videoFrames 0 (by omega) (by omega)
  have hrun : run env inp st flag
      = runFromLoop env inp st flag (totalFramesOf v) acfg
          (preStatuses env st v ++
            (tryEncoders env st v (attemptPlan env.availableEncoders st)).1) := by
    unfold run
    rw [hvs]
    simp only [hex, hout, if_true, hneg, haud]
  rw [hrun]
  unfold runFromLoop
  rw [hle]
  have hsub : k - 0 = k := by omega
  rw [hsub] at hlm
  cases acfg with
  | none =>
    have hf1 : flag (k + 1) = true := hmono k (k + 1) (by omega) hkt
    have hf3 : flag (k + 1 + 1) = true := hmono k (k + 1 + 1) (by omega) hkt
    simp [closeAndFinish, hf1, hf3, hlp, hlm, hlf]
  | some a =>
    have hfI : flag (k + 1) = true := hmono k (k + 1) (by omega) hkt
    obtain ⟨ha1, ha2⟩ := audioLoop_cancelled env flag inp.audioFrames 0 (k + 1) hfI
    have hf2 : flag (audioLoop env flag inp.audioFrames 0 (k + 1)).2 = true := by
      rcases ha2 with h | h <;> rw [h] <;> exact hmono k _ (by omega) hkt
    have hf4 : flag ((audioLoop env flag inp.audioFrames 0 (k + 1)).2 + 1) = true := by
      rcases ha2 with h | h <;> rw [h] <;> exact hmono k _ (by omega) hkt
    simp [closeAndFinish, hf2, hf4, hlp, hlm, hlf, ha1]

/-- Witness for C3: cancelling the two-frame run at the second flag
read processes exactly one frame, skips the flush and ends cancelled. -/
theorem cancellation_stops_encoding_witness :
    (run envAllOk inpSmall {} flagFromOne).exitKind = ExitKind.cancelledExit ∧
    (run envAllOk inpSmall {} flagFromOne).processedFrames = 1 ∧
    (run envAllOk inpSmall {} flagFromOne).muxedFlush = [] := by
  obtain ⟨h1, _h2, h3, h4, _h5, _h6⟩ :=
    cancellation_stops_encoding envAllOk inpSmall {} flagFromOne
      vsSmall [] cfgSmall none 1
      (by
        intro i j hij hi
        simp only [flagFromOne, decide_eq_true_eq] at hi ⊢
        omega)
      rfl rfl rfl (by decide) rfl
      (by
        intro i hi
        have h0 : i = 0 := by omega
        rw [h0]
        rfl)
      (by decide) (by decide)
      (by intro i _; rfl)
  exact ⟨h1, h3, h4⟩
